import Mathlib

/-!
Shallow embedding of the retrieval-and-decision pipeline of the Elimentary
backend (`backend/app/parsing.py`, `backend/app/retrieval.py`,
`backend/app/charts.py`, `backend/app/llm.py`, `backend/app/routers/chat.py`),
together with theorems settling the specification claims about it.

Python strings are modelled as `List Char` (ASCII-faithful), Python floats as
exact numbers (`ℚ` for data plumbing, `ℝ` for the cosine-similarity analysis),
Python dicts as association lists, and the external LLM/embedding calls as
oracle parameters.
-/

namespace Elimentary

/-- Python strings, modelled as lists of characters. -/
abbrev Str := List Char

/-- Python's notion of whitespace used by `str.strip`/`str.isspace`
(ASCII subset: space, tab, newline, carriage return, vertical tab, form feed). -/
def pyIsSpace (c : Char) : Bool :=
  c = ' ' || c = '\t' || c = '\n' || c = '\r' || c.toNat = 11 || c.toNat = 12

/-- Python `str.lower` (ASCII). -/
def pyLower (s : Str) : Str := s.map Char.toLower

/-- Python `str.strip()`: drop leading and trailing whitespace. -/
def pyStrip (s : Str) : Str :=
  ((s.dropWhile pyIsSpace).reverse.dropWhile pyIsSpace).reverse

/-- Helper for Python `str.split()` – accumulates the current word (reversed). -/
def pyWordsAux : Str → Str → List Str
  | acc, [] => if acc = [] then [] else [acc.reverse]
  | acc, c :: cs =>
    if pyIsSpace c then
      if acc = [] then pyWordsAux [] cs else acc.reverse :: pyWordsAux [] cs
    else pyWordsAux (c :: acc) cs

/-- Python `str.split()` with no arguments: split on whitespace runs. -/
def pyWords (s : Str) : List Str := pyWordsAux [] s

/-- Helper for Python `str.title`: tracks whether the previous char was a letter. -/
def pyTitleAux : Bool → Str → Str
  | _, [] => []
  | prevAlpha, c :: cs =>
    (if c.isAlpha then (if prevAlpha then c.toLower else c.toUpper) else c)
      :: pyTitleAux c.isAlpha cs

/-- Python `str.title()` (ASCII). -/
def pyTitle (s : Str) : Str := pyTitleAux false s

/-- Python `str.index(c)`: position of the first occurrence, if any. -/
def pyIndex (c : Char) (s : Str) : Option Nat := s.findIdx? (· = c)

/-- Python `str.rindex(c)`: position of the last occurrence, if any. -/
def pyRIndex (c : Char) (s : Str) : Option Nat :=
  (s.reverse.findIdx? (· = c)).map (fun i => s.length - 1 - i)

/-- Python's substring test `needle in haystack` for strings. -/
def pyContains (haystack needle : Str) : Bool :=
  match haystack with
  | [] => needle.isEmpty
  | _ :: t => needle.isPrefixOf haystack || pyContains t needle

/-- Order-preserving removal of duplicates keeping first occurrences, as done by
the `seen`-set pattern used in `charts.py` and `retrieval.py`. -/
def pyDedupAux : List Str → List Str → List Str
  | _, [] => []
  | seen, m :: ms =>
    if m ∈ seen then pyDedupAux seen ms else m :: pyDedupAux (m :: seen) ms

/-- Models `[m for m in l if m not in seen and not seen.add(m)]`. -/
def pyDedup (l : List Str) : List Str := pyDedupAux [] l

/-! ## Chunker (`parsing.py`, `chunk_text`) -/

/-- The `while start < length` loop of `chunk_text`.  The loop advances `start`
by at least one character per iteration whenever `overlap < max_chars`, so the
fuel `t.length + 1` supplied by `chunkText` is enough to run it to completion
for every valid parameter pair. -/
def chunkLoop (t : Str) (maxChars overlap : Nat) : Nat → Nat → List Str
  | 0, _ => []
  | fuel + 1, start =>
    if start < t.length then
      let e := min (start + maxChars) t.length
      let c := pyStrip ((t.drop start).take (e - start))
      let rest := if t.length ≤ e then [] else chunkLoop t maxChars overlap fuel (e - overlap)
      if c = [] then rest else c :: rest
    else []

/-- Models `chunk_text(text, max_chars, overlap)` from `parsing.py`. -/
def chunkText (text : Str) (maxChars overlap : Nat) : List Str :=
  let t := pyStrip text
  if t = [] then [] else chunkLoop t maxChars overlap (t.length + 1) 0

/-- The window positions `[start, end)` produced by the `chunk_text` loop,
used to state claims about the windowing behaviour. -/
def windowsLoop (len m o : Nat) : Nat → Nat → List (Nat × Nat)
  | 0, _ => []
  | fuel + 1, start =>
    if start < len then
      let e := min (start + m) len
      (start, e) :: (if len ≤ e then [] else windowsLoop len m o fuel (e - o))
    else []

/-- The windows underlying `chunkText` on the stripped text `t`. -/
def chunkWindows (t : Str) (m o : Nat) : List (Nat × Nat) :=
  windowsLoop t.length m o (t.length + 1) 0

/-- The chunk produced from a single window of `t`. -/
def windowChunk (t : Str) (p : Nat × Nat) : Str :=
  pyStrip ((t.drop p.1).take (p.2 - p.1))

theorem chunkLoop_eq_windows (t : Str) (m o : Nat) :
    ∀ fuel start, chunkLoop t m o fuel start =
      ((windowsLoop t.length m o fuel start).map (windowChunk t)).filter (· ≠ []) := by
  intro fuel
  induction fuel with
  | zero => intro start; simp [chunkLoop, windowsLoop]
  | succ n ih =>
    intro start
    by_cases h : start < t.length
    · simp only [chunkLoop, windowsLoop, h, if_pos]
      by_cases hend : t.length ≤ min (start + m) t.length
      · simp only [hend, if_pos]
        by_cases hc : pyStrip ((t.drop start).take (min (start + m) t.length - start)) = []
        · simp [hc, windowChunk]
        · simp [hc, windowChunk]
      · simp only [hend, if_neg, not_false_iff, List.map_cons, List.filter_cons]
        by_cases hc : pyStrip ((t.drop start).take (min (start + m) t.length - start)) = []
        · simp [hc, ih, windowChunk]
        · simp [hc, ih, windowChunk]
    · simp [chunkLoop, windowsLoop, h]

theorem windowsLoop_mem (len m o : Nat) :
    ∀ fuel start p, p ∈ windowsLoop len m o fuel start →
      p.1 < len ∧ p.2 = min (p.1 + m) len := by
  intro fuel
  induction fuel with
  | zero => intro start p hp; simp [windowsLoop] at hp
  | succ n ih =>
    intro start p hp
    by_cases h : start < len
    · simp only [windowsLoop, h, if_pos, List.mem_cons] at hp
      rcases hp with rfl | hp
      · exact ⟨h, rfl⟩
      · by_cases hend : len ≤ min (start + m) len
        · simp [hend] at hp
        · simp only [hend, if_neg, not_false_iff] at hp
          exact ih _ p hp
    · simp [windowsLoop, h] at hp

theorem windowsLoop_chain (len m o : Nat) (hom : o < m) :
    ∀ fuel start, List.Chain' (fun p q : Nat × Nat => q.1 + o = p.2 ∧ p.2 < q.2)
      (windowsLoop len m o fuel start) := by
  intro fuel
  induction fuel with
  | zero => intro start; simp [windowsLoop]
  | succ n ih =>
    intro start
    by_cases h : start < len
    · simp only [windowsLoop, h, if_pos]
      rw [List.chain'_cons']
      constructor
      · intro y hy
        by_cases hend : len ≤ min (start + m) len
        · simp [hend] at hy
        · simp only [hend, if_neg, not_false_iff] at hy
          cases n with
          | zero => simp [windowsLoop] at hy
          | succ k =>
            have hlt : min (start + m) len - o < len := by omega
            simp only [windowsLoop, hlt, if_pos, List.head?_cons, Option.mem_def,
              Option.some.injEq] at hy
            subst hy
            constructor
            · simp; omega
            · simp; omega
      · by_cases hend : len ≤ min (start + m) len
        · simp [hend]
        · simp only [hend, if_neg, not_false_iff]
          exact ih _
    · simp [windowsLoop, h]

theorem windowsLoop_getLast (len m o : Nat) (hom : o < m) :
    ∀ fuel start, len < start + fuel →
      ∀ p, (windowsLoop len m o fuel start).getLast? = some p → p.2 = len := by
  intro fuel
  induction fuel with
  | zero => intro start _ p hp; simp [windowsLoop] at hp
  | succ n ih =>
    intro start hfuel p hp
    by_cases h : start < len
    · simp only [windowsLoop, h, if_pos] at hp
      by_cases hend : len ≤ min (start + m) len
      · simp only [hend, if_pos, List.getLast?_singleton, Option.some.injEq] at hp
        subst hp; simp; omega
      · simp only [hend, if_neg, not_false_iff] at hp
        cases n with
        | zero => omega
        | succ k =>
          have hlt : min (start + m) len - o < len := by omega
          rw [show windowsLoop len m o (k + 1) (min (start + m) len - o) =
                (min (start + m) len - o, min (min (start + m) len - o + m) len) ::
                  (if len ≤ min (min (start + m) len - o + m) len then []
                   else windowsLoop len m o k
                     (min (min (start + m) len - o + m) len - o)) from by
              simp [windowsLoop, hlt]] at hp
          rw [List.getLast?_cons_cons] at hp
          rw [show ((min (start + m) len - o, min (min (start + m) len - o + m) len) ::
                (if len ≤ min (min (start + m) len - o + m) len then []
                 else windowsLoop len m o k
                   (min (min (start + m) len - o + m) len - o))) =
              windowsLoop len m o (k + 1) (min (start + m) len - o) from by
              simp [windowsLoop, hlt]] at hp
          exact ih (min (start + m) len - o) (by omega) p hp
    · simp [windowsLoop, h] at hp

theorem windowsLoop_length_mono (len o m1 m2 : Nat) (hm : m2 ≤ m1) :
    ∀ f1 f2 s1 s2, f1 ≤ f2 → s2 ≤ s1 →
      (windowsLoop len m1 o f1 s1).length ≤ (windowsLoop len m2 o f2 s2).length := by
  intro f1
  induction f1 with
  | zero => intro f2 s1 s2 _ _; simp [windowsLoop]
  | succ n ih =>
    intro f2 s1 s2 hf hs
    cases f2 with
    | zero => omega
    | succ k =>
      by_cases h1 : s1 < len
      · have h2 : s2 < len := by omega
        simp only [windowsLoop, h1, h2, if_pos, List.length_cons]
        by_cases hend1 : len ≤ min (s1 + m1) len
        · simp only [hend1, if_pos, List.length_nil]
          omega
        · have hend2 : ¬ len ≤ min (s2 + m2) len := by omega
          simp only [hend1, hend2, if_neg, not_false_iff, Nat.add_le_add_iff_right]
          exact ih k _ _ (by omega) (by omega)
      · simp [windowsLoop, h1]

theorem dropWhile_eq_self_of (p : Char → Bool) (l : Str) (h : ∀ c ∈ l, p c = false) :
    l.dropWhile p = l := by
  cases l with
  | nil => rfl
  | cons c cs => simp [List.dropWhile_cons, h c (List.mem_cons_self c cs)]

theorem pyStrip_of_noSpace (l : Str) (h : ∀ c ∈ l, pyIsSpace c = false) :
    pyStrip l = l := by
  unfold pyStrip
  rw [dropWhile_eq_self_of _ _ h, dropWhile_eq_self_of, List.reverse_reverse]
  intro c hc
  exact h c (by simpa using hc)

theorem chunkText_length_of_noSpace (text : Str) (m o : Nat) (hm : 0 < m)
    (h : ∀ c ∈ pyStrip text, pyIsSpace c = false) :
    (chunkText text m o).length = (chunkWindows (pyStrip text) m o).length := by
  unfold chunkText
  by_cases ht : pyStrip text = []
  · simp only [ht, if_pos]
    simp [chunkWindows, ht, windowsLoop]
  · simp only [ht, if_neg, not_false_iff]
    rw [chunkLoop_eq_windows]
    have hall : ∀ a ∈ (windowsLoop (pyStrip text).length m o ((pyStrip text).length + 1) 0).map
        (windowChunk (pyStrip text)), (fun x => decide (x ≠ ([] : Str))) a = true := by
      intro a ha
      rw [List.mem_map] at ha
      obtain ⟨p, hp, rfl⟩ := ha
      obtain ⟨hp1, hp2⟩ := windowsLoop_mem _ _ _ _ _ _ hp
      have hslice : ∀ c ∈ (((pyStrip text).drop p.1).take (p.2 - p.1)), pyIsSpace c = false := by
        intro c hc
        exact h c (List.drop_subset _ _ (List.take_subset _ _ hc))
      unfold windowChunk
      rw [pyStrip_of_noSpace _ hslice]
      have hlen : (((pyStrip text).drop p.1).take (p.2 - p.1)).length = p.2 - p.1 := by
        rw [List.length_take, List.length_drop]
        omega
      have hne : (((pyStrip text).drop p.1).take (p.2 - p.1)) ≠ [] := by
        intro hcontra
        rw [hcontra] at hlen
        simp only [List.length_nil] at hlen
        omega
      simp [hne]
    rw [List.filter_eq_self.mpr hall, List.length_map]
    rfl

/-- C8: for `0 < overlap < max_chars`, `chunk_text` produces exactly the windows
`[start, min (start + max_chars) len)` of the stripped input, each trimmed of
whitespace with empty windows dropped; every window is clamped to the input
length; each next window starts at `end - overlap`, so consecutive windows
overlap by exactly `overlap` characters and have strictly increasing ends; the
loop stops when a window's end reaches the length (the last window ends exactly
at the input length); and blank input yields the empty sequence. -/
theorem chunkText_window_spec (text : Str) (m o : Nat) (ho : 0 < o) (hom : o < m) :
    chunkText text m o =
      ((chunkWindows (pyStrip text) m o).map (windowChunk (pyStrip text))).filter (· ≠ []) ∧
    (pyStrip text = [] → chunkText text m o = []) ∧
    (∀ p ∈ chunkWindows (pyStrip text) m o,
      p.1 < (pyStrip text).length ∧ p.2 = min (p.1 + m) (pyStrip text).length) ∧
    List.Chain' (fun p q : Nat × Nat => q.1 + o = p.2 ∧ p.2 < q.2)
      (chunkWindows (pyStrip text) m o) ∧
    (∀ p, (chunkWindows (pyStrip text) m o).getLast? = some p →
      p.2 = (pyStrip text).length) := by
  refine ⟨?_, ?_, ?_, ?_, ?_⟩
  · unfold chunkText chunkWindows
    by_cases ht : pyStrip text = []
    · simp [ht, windowsLoop]
    · simp only [ht, if_neg, not_false_iff]
      exact chunkLoop_eq_windows _ _ _ _ _
  · intro ht
    simp [chunkText, ht]
  · exact fun p hp => windowsLoop_mem _ _ _ _ _ p hp
  · exact windowsLoop_chain _ _ _ hom _ _
  · exact fun p hp => windowsLoop_getLast _ _ _ hom _ _ (by omega) p hp

theorem chunkText_window_spec_witness :
    chunkText ("abcdefgh".toList) 5 2 =
      ((chunkWindows (pyStrip "abcdefgh".toList) 5 2).map
        (windowChunk (pyStrip "abcdefgh".toList))).filter (· ≠ []) ∧
    List.Chain' (fun p q : Nat × Nat => q.1 + 2 = p.2 ∧ p.2 < q.2)
      (chunkWindows (pyStrip "abcdefgh".toList) 5 2) :=
  ⟨(chunkText_window_spec "abcdefgh".toList 5 2 (by decide) (by decide)).1,
   (chunkText_window_spec "abcdefgh".toList 5 2 (by decide) (by decide)).2.2.2.1⟩

/-- The concrete text refuting claim C9: one non-space character at each of the
positions 0, 8 and 17 of an 18-character text, all other characters spaces. -/
def c9Text : Str := "a       b        c".toList

/-- C9 counterexample: with `overlap = 2` and `0 < 2 < 5 ≤ 6`, shrinking
`max_chars` from 6 to 5 DECREASES the chunk count from 4 to 3 (the middle
all-blank windows of the finer split are dropped), refuting the claimed
monotonicity of the chunk count in `max_chars`. -/
theorem chunk_count_not_monotone :
    0 < 2 ∧ 2 < 5 ∧ 5 ≤ 6 ∧
    (chunkText c9Text 5 2).length = 3 ∧ (chunkText c9Text 6 2).length = 4 := by
  decide

/-- C9 amended: as `max_chars` decreases (valid parameters, fixed overlap), the
number of WINDOWS the loop visits is monotonically non-decreasing, and the chunk
count itself is monotonically non-decreasing whenever the stripped text contains
no whitespace (so that no window is dropped as blank); with interior whitespace,
dropped all-blank windows can break monotonicity of the chunk count. -/
theorem chunk_count_monotone_amended (text : Str) (m1 m2 o : Nat)
    (ho : 0 < o) (ho2 : o < m2) (hm : m2 ≤ m1) :
    (chunkWindows (pyStrip text) m1 o).length ≤ (chunkWindows (pyStrip text) m2 o).length ∧
    ((∀ c ∈ pyStrip text, pyIsSpace c = false) →
      (chunkText text m1 o).length ≤ (chunkText text m2 o).length) := by
  constructor
  · exact windowsLoop_length_mono _ _ _ _ hm _ _ _ _ (le_refl _) (le_refl _)
  · intro h
    rw [chunkText_length_of_noSpace text m1 o (by omega) h,
        chunkText_length_of_noSpace text m2 o (by omega) h]
    exact windowsLoop_length_mono _ _ _ _ hm _ _ _ _ (le_refl _) (le_refl _)

theorem chunk_count_monotone_amended_witness :
    (chunkWindows (pyStrip "abcdefghij".toList) 7 2).length ≤
      (chunkWindows (pyStrip "abcdefghij".toList) 4 2).length ∧
    (chunkText "abcdefghij".toList 7 2).length ≤ (chunkText "abcdefghij".toList 4 2).length :=
  ⟨(chunk_count_monotone_amended "abcdefghij".toList 7 4 2 (by decide) (by decide)
      (by decide)).1,
   (chunk_count_monotone_amended "abcdefghij".toList 7 4 2 (by decide) (by decide)
      (by decide)).2 (by decide)⟩

/-! ## Similarity ranker (`retrieval.py`) -/

/-- Models `sum(x * y for x, y in zip(a, b))` from `_cosine_similarity`. -/
def dotP (a b : List ℝ) : ℝ := ((a.zip b).map (fun p => p.1 * p.2)).sum

/-- Models `sum(x * x for x in a)`, the squared Euclidean norm used by
`_cosine_similarity`. -/
def sumSq (a : List ℝ) : ℝ := (a.map (fun x => x * x)).sum

/-- Models `_cosine_similarity(a, b)` from `retrieval.py`, with Python floats modelled
as real numbers. -/
noncomputable def cosineSim (a b : List ℝ) : ℝ :=
  if a.length ≠ b.length then 0
  else if Real.sqrt (sumSq a) = 0 ∨ Real.sqrt (sumSq b) = 0 then 0
  else dotP a b / (Real.sqrt (sumSq a) * Real.sqrt (sumSq b))

/-- A vector all of whose components are zero. -/
def isZeroVec (a : List ℝ) : Prop := ∀ x ∈ a, x = 0

theorem dotP_nil_right (a : List ℝ) : dotP a [] = 0 := by
  cases a <;> simp [dotP]

theorem dotP_comm (a : List ℝ) : ∀ b : List ℝ, dotP a b = dotP b a := by
  induction a with
  | nil => intro b; cases b <;> simp [dotP]
  | cons x xs ih =>
    intro b
    cases b with
    | nil => simp [dotP]
    | cons y ys =>
      simp only [dotP, List.zip_cons_cons, List.map_cons, List.sum_cons] at *
      rw [mul_comm, ih ys]

theorem sumSq_nonneg (a : List ℝ) : 0 ≤ sumSq a := by
  induction a with
  | nil => simp [sumSq]
  | cons x xs ih =>
    simp only [sumSq, List.map_cons, List.sum_cons] at *
    nlinarith [mul_self_nonneg x]

theorem sumSq_eq_zero_iff (a : List ℝ) : sumSq a = 0 ↔ isZeroVec a := by
  induction a with
  | nil => simp [sumSq, isZeroVec]
  | cons x xs ih =>
    simp only [sumSq, List.map_cons, List.sum_cons, isZeroVec] at *
    constructor
    · intro h
      have hx : 0 ≤ x * x := mul_self_nonneg x
      have hs : 0 ≤ (xs.map (fun x => x * x)).sum := sumSq_nonneg xs
      have hx0 : x * x = 0 := by linarith
      have hxs : (xs.map (fun x => x * x)).sum = 0 := by linarith
      intro y hy
      rcases List.mem_cons.mp hy with rfl | hy
      · exact mul_self_eq_zero.mp hx0
      · exact ih.mp hxs y hy
    · intro h
      have hx : x = 0 := h x (List.mem_cons_self x xs)
      have hxs : (xs.map (fun x => x * x)).sum = 0 :=
        ih.mpr (fun y hy => h y (List.mem_cons_of_mem x hy))
      rw [hx, hxs]; ring

theorem dotP_zero_right (a : List ℝ) : ∀ b : List ℝ, isZeroVec b → dotP a b = 0 := by
  induction a with
  | nil => intro b _; cases b <;> simp [dotP]
  | cons x xs ih =>
    intro b hb
    cases b with
    | nil => simp [dotP]
    | cons y ys =>
      simp only [dotP, List.zip_cons_cons, List.map_cons, List.sum_cons]
      have hy : y = 0 := hb y (List.mem_cons_self y ys)
      have hys : dotP xs ys = 0 :=
        ih ys (fun z hz => hb z (List.mem_cons_of_mem y hz))
      simp only [dotP] at hys
      rw [hy, hys]; ring

/-- Cauchy–Schwarz for the list dot product. -/
theorem dotP_sq_le (a : List ℝ) : ∀ b : List ℝ, (dotP a b) ^ 2 ≤ sumSq a * sumSq b := by
  induction a with
  | nil =>
    intro b
    have := sumSq_nonneg b
    simp only [dotP, List.zip_nil_left, List.map_nil, List.sum_nil, sumSq, ne_eq]
    simp only [sumSq] at this
    nlinarith
  | cons x xs ih =>
    intro b
    cases b with
    | nil =>
      rw [dotP_nil_right]
      have ha := sumSq_nonneg (x :: xs)
      have hb := sumSq_nonneg ([] : List ℝ)
      nlinarith
    | cons y ys =>
      have key : (dotP xs ys) ^ 2 ≤ sumSq xs * sumSq ys := ih ys
      have hA := sumSq_nonneg xs
      have hB := sumSq_nonneg ys
      simp only [dotP, sumSq, List.zip_cons_cons, List.map_cons, List.sum_cons] at *
      by_cases hBz : (ys.map (fun x => x * x)).sum = 0
      · have hzs : isZeroVec ys := (sumSq_eq_zero_iff ys).mp (by simpa [sumSq] using hBz)
        have hd : dotP xs ys = 0 := dotP_zero_right xs ys hzs
        simp only [dotP] at hd
        rw [hBz, hd]
        nlinarith [mul_self_nonneg y, mul_self_nonneg x]
      · have hBpos : 0 < (ys.map (fun x => x * x)).sum := lt_of_le_of_ne hB (Ne.symm hBz)
        nlinarith [sq_nonneg (x * (ys.map (fun x => x * x)).sum -
            y * ((xs.zip ys).map (fun p => p.1 * p.2)).sum),
          mul_nonneg (add_nonneg (mul_self_nonneg y) hB)
            (sub_nonneg.mpr key), hBpos, mul_self_nonneg x, mul_self_nonneg y]

theorem abs_dotP_le (a b : List ℝ) :
    |dotP a b| ≤ Real.sqrt (sumSq a) * Real.sqrt (sumSq b) := by
  have h := dotP_sq_le a b
  have := Real.sqrt_le_sqrt h
  rw [Real.sqrt_sq_eq_abs] at this
  calc |dotP a b| ≤ Real.sqrt (sumSq a * sumSq b) := by
        rw [← Real.sqrt_sq_eq_abs]
        exact Real.sqrt_le_sqrt h
    _ = Real.sqrt (sumSq a) * Real.sqrt (sumSq b) := Real.sqrt_mul (sumSq_nonneg a) _

/-- C7: `_cosine_similarity` is symmetric; it returns exactly 0 when the two
vectors differ in length or when either has zero norm; and for equal-length
vectors that are not all-zero it is bounded in [-1, 1]. -/
theorem cosine_similarity_props :
    (∀ a b : List ℝ, cosineSim a b = cosineSim b a) ∧
    (∀ a b : List ℝ, a.length ≠ b.length → cosineSim a b = 0) ∧
    (∀ a b : List ℝ, Real.sqrt (sumSq a) = 0 ∨ Real.sqrt (sumSq b) = 0 →
      cosineSim a b = 0) ∧
    (∀ a b : List ℝ, a.length = b.length → ¬ isZeroVec a → ¬ isZeroVec b →
      -1 ≤ cosineSim a b ∧ cosineSim a b ≤ 1) := by
  refine ⟨?_, ?_, ?_, ?_⟩
  · intro a b
    by_cases h : a.length = b.length
    · simp only [cosineSim, h, ne_eq, not_true_eq_false, if_false]
      by_cases hz : Real.sqrt (sumSq a) = 0 ∨ Real.sqrt (sumSq b) = 0
      · rw [if_pos hz, if_pos (Or.symm hz)]
      · rw [if_neg hz, if_neg (fun hc => hz (Or.symm hc)), dotP_comm, mul_comm]
    · have h' : b.length ≠ a.length := fun hc => h hc.symm
      simp [cosineSim, h, h']
  · intro a b h
    simp [cosineSim, h]
  · intro a b h
    by_cases hl : a.length = b.length
    · simp [cosineSim, hl, h]
    · simp [cosineSim, hl]
  · intro a b hlen ha hb
    have hA : 0 < sumSq a :=
      lt_of_le_of_ne (sumSq_nonneg a) (fun hc => ha ((sumSq_eq_zero_iff a).mp hc.symm))
    have hB : 0 < sumSq b :=
      lt_of_le_of_ne (sumSq_nonneg b) (fun hc => hb ((sumSq_eq_zero_iff b).mp hc.symm))
    have hsA : 0 < Real.sqrt (sumSq a) := Real.sqrt_pos.mpr hA
    have hsB : 0 < Real.sqrt (sumSq b) := Real.sqrt_pos.mpr hB
    have hne : ¬ (Real.sqrt (sumSq a) = 0 ∨ Real.sqrt (sumSq b) = 0) := by
      push_neg
      exact ⟨ne_of_gt hsA, ne_of_gt hsB⟩
    have hval : cosineSim a b =
        dotP a b / (Real.sqrt (sumSq a) * Real.sqrt (sumSq b)) := by
      simp [cosineSim, hlen, hne]
    have habs : |cosineSim a b| ≤ 1 := by
      rw [hval, abs_div, abs_of_pos (mul_pos hsA hsB)]
      rw [div_le_one (mul_pos hsA hsB)]
      exact abs_dotP_le a b
    exact abs_le.mp habs

theorem cosine_similarity_props_witness :
    cosineSim [(1 : ℝ), 1] [2, 3] = cosineSim [2, 3] [(1 : ℝ), 1] ∧
    cosineSim [(1 : ℝ)] [1, 2] = 0 ∧
    cosineSim ([] : List ℝ) [] = 0 ∧
    (-1 ≤ cosineSim [(1 : ℝ), 0] [0, 1] ∧ cosineSim [(1 : ℝ), 0] [0, 1] ≤ 1) := by
  refine ⟨cosine_similarity_props.1 _ _, ?_, ?_, ?_⟩
  · exact cosine_similarity_props.2.1 [(1 : ℝ)] [1, 2] (by simp)
  · exact cosine_similarity_props.2.2.1 [] [] (by left; simp [sumSq])
  · refine cosine_similarity_props.2.2.2 [(1 : ℝ), 0] [0, 1] (by simp) ?_ ?_
    · intro h
      have := h 1 (by simp)
      norm_num at this
    · intro h
      have := h 1 (by simp)
      norm_num at this

/-! ## Deduplicating top-K walk (`retrieve_relevant_chunks`, step 6) -/

/-- The deduplication key: `text[:100].lower().strip()`. -/
def dedupKey (t : Str) : Str := pyStrip (pyLower (t.take 100))

/-- The final loop of `retrieve_relevant_chunks`: walk the score-sorted texts,
skip texts whose key was already seen, emit otherwise, and stop as soon as the
result reaches `top_k` elements. `count` is `len(result)` so far. -/
def dedupWalkAux (topK : Nat) : List Str → List Str → Nat → List Str
  | [], _, _ => []
  | t :: ts, seen, count =>
    if dedupKey t ∈ seen then dedupWalkAux topK ts seen count
    else if topK ≤ count + 1 then [t]
    else t :: dedupWalkAux topK ts (dedupKey t :: seen) (count + 1)

/-- The emitted text list, starting from an empty result and empty seen set. -/
def retrieveDedup (texts : List Str) (topK : Nat) : List Str :=
  dedupWalkAux topK texts [] 0

theorem dedupWalkAux_sublist (topK : Nat) :
    ∀ ts seen count, (dedupWalkAux topK ts seen count).Sublist ts := by
  intro ts
  induction ts with
  | nil => intro seen count; simp [dedupWalkAux]
  | cons t ts ih =>
    intro seen count
    simp only [dedupWalkAux]
    by_cases h1 : dedupKey t ∈ seen
    · simp only [h1, if_pos]
      exact (ih seen count).cons t
    · simp only [h1, if_neg, not_false_iff]
      by_cases h2 : topK ≤ count + 1
      · simp only [h2, if_pos]
        exact (List.nil_sublist ts).cons₂ t
      · simp only [h2, if_neg, not_false_iff]
        exact (ih _ _).cons₂ t

theorem dedupWalkAux_length (topK : Nat) :
    ∀ ts seen count, count < topK →
      (dedupWalkAux topK ts seen count).length + count ≤ topK := by
  intro ts
  induction ts with
  | nil => intro seen count h; simp [dedupWalkAux]; omega
  | cons t ts ih =>
    intro seen count h
    simp only [dedupWalkAux]
    by_cases h1 : dedupKey t ∈ seen
    · simp only [h1, if_pos]
      exact ih seen count h
    · simp only [h1, if_neg, not_false_iff]
      by_cases h2 : topK ≤ count + 1
      · simp only [h2, if_pos, List.length_singleton]
        omega
      · simp only [h2, if_neg, not_false_iff, List.length_cons]
        have := ih (dedupKey t :: seen) (count + 1) (by omega)
        omega

theorem dedupWalkAux_keys (topK : Nat) :
    ∀ ts seen count,
      (∀ r ∈ dedupWalkAux topK ts seen count, dedupKey r ∉ seen) ∧
      (dedupWalkAux topK ts seen count).Pairwise
        (fun t1 t2 => dedupKey t1 ≠ dedupKey t2) := by
  intro ts
  induction ts with
  | nil => intro seen count; simp [dedupWalkAux]
  | cons t ts ih =>
    intro seen count
    simp only [dedupWalkAux]
    by_cases h1 : dedupKey t ∈ seen
    · simp only [h1, if_pos]
      exact ih seen count
    · simp only [h1, if_neg, not_false_iff]
      by_cases h2 : topK ≤ count + 1
      · simp only [h2, if_pos]
        constructor
        · intro r hr
          rw [List.mem_singleton] at hr
          subst hr
          exact h1
        · simp
      · simp only [h2, if_neg, not_false_iff]
        obtain ⟨ihmem, ihpair⟩ := ih (dedupKey t :: seen) (count + 1)
        constructor
        · intro r hr
          rcases List.mem_cons.mp hr with rfl | hr
          · exact h1
          · intro hc
            exact ihmem r hr (List.mem_cons_of_mem _ hc)
        · rw [List.pairwise_cons]
          refine ⟨fun r hr => ?_, ihpair⟩
          intro hc
          exact ihmem r hr (by rw [← hc]; exact List.mem_cons_self _ _)

/-- C6 counterexample: the walk's key is `text[:100].lower().strip()`, not the
raw lowercase 100-character prefix.  With input `["ab", "ab "]` and `topK = 2`,
the second text's lowercase first-100-characters `"ab "` match no previously
emitted snippet, yet the text is NOT emitted (the stripped keys collide). -/
theorem retrieve_dedup_counterexample :
    retrieveDedup ["ab".toList, ['a', 'b', ' ']] 2 = ["ab".toList] ∧
    pyLower (['a', 'b', ' '].take 100) ≠ pyLower ("ab".toList.take 100) := by
  constructor
  · rfl
  · decide

/-- C6 amended: the walk emits a chunk's text unless its lowercase,
whitespace-trimmed first 100 characters match a snippet already emitted; the
result is a subsequence of the score-sorted input, has length at most `topK`
whenever `topK ≥ 1`, and no two emitted texts share the same trimmed lowercase
100-character key (in particular, two chunks whose raw lowercase first 100
characters are identical never both appear). -/
theorem retrieve_dedup_amended (texts : List Str) (topK : Nat) :
    (retrieveDedup texts topK).Sublist texts ∧
    (1 ≤ topK → (retrieveDedup texts topK).length ≤ topK) ∧
    (retrieveDedup texts topK).Pairwise (fun t1 t2 => dedupKey t1 ≠ dedupKey t2) ∧
    (retrieveDedup texts topK).Pairwise
      (fun t1 t2 => pyLower (t1.take 100) ≠ pyLower (t2.take 100)) := by
  refine ⟨dedupWalkAux_sublist topK texts [] 0, ?_, (dedupWalkAux_keys topK texts [] 0).2, ?_⟩
  · intro h
    unfold retrieveDedup
    have := dedupWalkAux_length topK texts [] 0 (by omega)
    omega
  · apply List.Pairwise.imp ?_ (dedupWalkAux_keys topK texts [] 0).2
    intro t1 t2 hne hc
    exact hne (by unfold dedupKey; rw [hc])

theorem retrieve_dedup_amended_witness :
    (retrieveDedup ["ab".toList, "cd".toList, "ab".toList] 1).length ≤ 1 ∧
    (retrieveDedup ["ab".toList, "cd".toList, "ab".toList] 1).Pairwise
      (fun t1 t2 => dedupKey t1 ≠ dedupKey t2) :=
  ⟨(retrieve_dedup_amended ["ab".toList, "cd".toList, "ab".toList] 1).2.1 (by decide),
   (retrieve_dedup_amended ["ab".toList, "cd".toList, "ab".toList] 1).2.2.1⟩

/-! ## Chart builder (`charts.py`, `build_chart_data_from_plan`) -/

/-- The table `metrics_by_year`: a Python dict `year -> dict metric_name -> float`,
modelled as an association list (year keys distinct in a real dict). -/
abbrev Table := List (Int × List (Str × ℚ))

/-- Models `metrics_by_year.get(y, ...)` with its empty-dict default. -/
def lookupYear (tbl : Table) (y : Int) : List (Str × ℚ) := (List.lookup y tbl).getD []

/-- Models `years = sorted(metrics_by_year.keys())`. -/
def sortedYears (tbl : Table) : List Int := (tbl.map Prod.fst).insertionSort (· ≤ ·)

/-- The literal `metric_name_mapping` synonym table from
`build_chart_data_from_plan`, in source order. -/
def metricNameMapping : List (Str × Str) :=
  [("revenue", "revenue"),
   ("net_profit", "net_profit"),
   ("net profit", "net_profit"),
   ("total_assets", "total_assets"),
   ("total assets", "total_assets"),
   ("assets", "total_assets"),
   ("total_liabilities", "total_liabilities"),
   ("total liabilities", "total_liabilities"),
   ("liabilities", "total_liabilities")].map (fun p => (p.1.toList, p.2.toList))

/-- The `for key, value in metric_name_mapping.items()` substring-match loop:
first table entry whose key matches the requested name as a bidirectional
case-insensitive substring. -/
def substringMatch (name : Str) : Option Str :=
  (metricNameMapping.find? (fun kv =>
    pyContains (pyLower kv.1) (pyLower name) || pyContains (pyLower name) (pyLower kv.1))).map
    Prod.snd

/-- One iteration of the `for metric_name in metrics` normalization loop,
appending at most one normalized name to the accumulator. -/
def normalizeStep (tbl : Table) (years : List Int) (acc : List Str) (name : Str) : List Str :=
  match List.lookup name metricNameMapping with
  | some v => acc ++ [v]
  | none =>
    match List.lookup (pyLower name) metricNameMapping with
    | some v => acc ++ [v]
    | none =>
      match substringMatch name with
      | some v => acc ++ [v]
      | none =>
        match years with
        | [] => acc
        | y0 :: _ =>
          if (List.lookup name (lookupYear tbl y0)).isSome then acc ++ [name] else acc

/-- The `normalized_metrics` list of `build_chart_data_from_plan` (loop followed
by order-preserving duplicate removal). -/
def normalizedMetricsSrc (metrics : List Str) (tbl : Table) (years : List Int) : List Str :=
  pyDedup (metrics.foldl (normalizeStep tbl years) [])

/-- Modelling the words of the specification: for each requested name the first
matching rule wins — (1) exact synonym-table lookup, (2) lookup of the
lowercased name, (3) bidirectional substring match against the table keys in
order, (4) literal key presence in the first available year's metric map;
unmatched names yield nothing. -/
def normalizeOneSpec (tbl : Table) (years : List Int) (name : Str) : Option Str :=
  (List.lookup name metricNameMapping).orElse (fun _ =>
    (List.lookup (pyLower name) metricNameMapping).orElse (fun _ =>
      (substringMatch name).orElse (fun _ =>
        match years with
        | [] => none
        | y0 :: _ =>
          if (List.lookup name (lookupYear tbl y0)).isSome then some name else none)))

/-- Specification-level normalization: per-name rule chain, silent drops, then
duplicate collapse keeping first occurrences. -/
def normalizedMetricsSpec (metrics : List Str) (tbl : Table) (years : List Int) : List Str :=
  pyDedup (metrics.filterMap (normalizeOneSpec tbl years))

theorem foldl_normalizeStep (tbl : Table) (years : List Int) :
    ∀ (metrics acc : List Str), List.foldl (normalizeStep tbl years) acc metrics =
      acc ++ List.filterMap (normalizeOneSpec tbl years) metrics := by
  intro metrics
  induction metrics with
  | nil => intro acc; simp
  | cons m ms ih =>
    intro acc
    rw [List.foldl_cons, ih, List.filterMap_cons]
    have hstep : normalizeStep tbl years acc m =
        acc ++ (match normalizeOneSpec tbl years m with
                | none => []
                | some v => [v]) := by
      unfold normalizeStep normalizeOneSpec
      cases h1 : List.lookup m metricNameMapping with
      | some v => simp [h1, Option.orElse]
      | none =>
        cases h2 : List.lookup (pyLower m) metricNameMapping with
        | some v => simp [h1, h2, Option.orElse]
        | none =>
          cases h3 : substringMatch m with
          | some v => simp [h1, h2, h3, Option.orElse]
          | none =>
            cases years with
            | nil => simp [h1, h2, h3, Option.orElse]
            | cons y0 ys =>
              by_cases h4 : (List.lookup m (lookupYear tbl y0)).isSome
              · simp [h1, h2, h3, h4, Option.orElse]
              · simp [h1, h2, h3, h4, Option.orElse]
    rw [hstep]
    cases normalizeOneSpec tbl years m with
    | none => simp
    | some v => simp

/-- C4: the source normalization agrees with the specified rule chain (first
matching rule wins, silent drops, first-occurrence duplicate collapse), and in
particular `["Net Profit", "assets"]` normalizes to
`["net_profit", "total_assets"]` against any metrics table. -/
theorem metric_normalization (tbl : Table) (years : List Int) (metrics : List Str) :
    normalizedMetricsSrc metrics tbl years = normalizedMetricsSpec metrics tbl years ∧
    normalizedMetricsSrc ["Net Profit".toList, "assets".toList] tbl years =
      ["net_profit".toList, "total_assets".toList] := by
  constructor
  · unfold normalizedMetricsSrc normalizedMetricsSpec
    rw [foldl_normalizeStep]
    rfl
  · rfl

/-- One entry of a chart's `series` list: `{label, values}`. -/
structure ChartSeries where
  label : Str
  values : List ℚ
deriving DecidableEq

/-- The chart data dict returned by `build_chart_data_from_plan`. -/
structure ChartData where
  chartType : Str
  years : List Int
  series : List ChartSeries
deriving DecidableEq

/-- The plan dict consumed by `build_chart_data_from_plan` (the four fields the
function reads). -/
structure ChartPlan where
  wantsChart : Bool
  chartType : Str
  xAxis : Str
  metrics : List Str
  aggregation : Str
deriving DecidableEq

/-- Models `metric_name.replace("_", " ").title()`. -/
def seriesLabel (name : Str) : Str :=
  pyTitle (name.map (fun c => if c = '_' then ' ' else c))

/-- Models `build_chart_data_from_plan(plan, metrics_by_year)` from `charts.py`. -/
def buildChartDataFromPlan (plan : ChartPlan) (tbl : Table) : Option ChartData :=
  let chartType := plan.chartType
  let metrics := plan.metrics
  let xAxis := plan.xAxis
  let aggregation := plan.aggregation
  if metrics = [] ∨ tbl = [] then none
  else
    match sortedYears tbl with
    | [] => none
    | y0 :: yrest =>
      let years := y0 :: yrest
      let xAxis2 := if xAxis ≠ "year".toList then "year".toList else xAxis
      let normalized := normalizedMetricsSrc metrics tbl years
      if normalized = [] then none
      else if chartType = "pie".toList then
        let targetYear := years.getLast (by simp)
        let series := normalized.filterMap (fun name =>
          (List.lookup name (lookupYear tbl targetYear)).map
            (fun v => ChartSeries.mk (seriesLabel name) [v]))
        if series = [] then none
        else some ⟨"pie".toList, [targetYear], series⟩
      else
        let series := normalized.filterMap (fun name =>
          let values := years.map (fun y => (List.lookup name (lookupYear tbl y)).getD 0)
          if values.any (fun v => decide (v ≠ 0)) then
            some (ChartSeries.mk (seriesLabel name) values)
          else none)
        if series = [] then none
        else some ⟨chartType, years, series⟩

/-- C10: the output of `build_chart_data_from_plan` depends only on the plan's
`chart_type` and `metrics` fields (besides the metrics table): `aggregation`
is never consulted and `x_axis` is coerced to `"year"` and then unused. -/
theorem build_chart_ignores_axis_and_aggregation (p1 p2 : ChartPlan) (tbl : Table)
    (hct : p1.chartType = p2.chartType) (hm : p1.metrics = p2.metrics) :
    buildChartDataFromPlan p1 tbl = buildChartDataFromPlan p2 tbl := by
  cases p1
  cases p2
  simp only at hct hm
  subst hct
  subst hm
  rfl

theorem build_chart_ignores_axis_and_aggregation_witness :
    buildChartDataFromPlan
      ⟨true, "line".toList, "metric".toList, ["revenue".toList], "latest_year".toList⟩
      [(2022, [("revenue".toList, 100)])] =
    buildChartDataFromPlan
      ⟨true, "line".toList, "year".toList, ["revenue".toList], "none".toList⟩
      [(2022, [("revenue".toList, 100)])] :=
  build_chart_ignores_axis_and_aggregation _ _ _ rfl rfl

theorem sorted_le_getLast :
    ∀ (l : List Int), l.Sorted (· ≤ ·) → ∀ p, l.getLast? = some p → ∀ z ∈ l, z ≤ p := by
  intro l
  induction l with
  | nil => intro _ p hp; simp at hp
  | cons x xs ih =>
    intro hs p hp z hz
    cases xs with
    | nil =>
      simp only [List.getLast?_singleton, Option.some.injEq] at hp
      rw [List.mem_singleton] at hz
      subst hp; subst hz
      exact le_refl _
    | cons y ys =>
      rw [List.getLast?_cons_cons] at hp
      rcases List.mem_cons.mp hz with rfl | hz2
      · obtain ⟨hne, rfl⟩ := List.mem_getLast?_eq_getLast hp
        exact (List.sorted_cons.mp hs).1 _ (List.getLast_mem hne)
      · exact ih (List.sorted_cons.mp hs).2 p hp z hz2

theorem sortedYears_sorted_le (tbl : Table) : (sortedYears tbl).Sorted (· ≤ ·) :=
  List.sorted_insertionSort _ _

theorem sortedYears_mem (tbl : Table) (z : Int) :
    z ∈ sortedYears tbl ↔ z ∈ tbl.map Prod.fst :=
  (List.perm_insertionSort _ _).mem_iff

theorem sortedYears_sorted_lt (tbl : Table) (hnd : (tbl.map Prod.fst).Nodup) :
    (sortedYears tbl).Sorted (· < ·) :=
  (sortedYears_sorted_le tbl).lt_of_le ((List.perm_insertionSort _ _).nodup_iff.mpr hnd)

/-- C5: whenever `build_chart_data_from_plan` returns a chart, its `years` are
strictly ascending (distinct) integers; in the line/bar shape every series has
one value per year; and in the pie shape every series has exactly one value and
`years` holds only the most recent year of the table. -/
theorem chart_data_invariants (tbl : Table) (hnd : (tbl.map Prod.fst).Nodup)
    (plan : ChartPlan) (cd : ChartData)
    (hcd : buildChartDataFromPlan plan tbl = some cd) :
    cd.years.Sorted (· < ·) ∧
    ((cd.chartType = "line".toList ∨ cd.chartType = "bar".toList) →
      ∀ s ∈ cd.series, s.values.length = cd.years.length) ∧
    (cd.chartType = "pie".toList →
      (∀ s ∈ cd.series, s.values.length = 1) ∧
      ∃ y, cd.years = [y] ∧ ∀ z ∈ tbl.map Prod.fst, z ≤ y) := by
  unfold buildChartDataFromPlan at hcd
  by_cases h1 : plan.metrics = [] ∨ tbl = []
  · simp [h1] at hcd
  · rw [if_neg h1] at hcd
    cases hys : sortedYears tbl with
    | nil => rw [hys] at hcd; simp at hcd
    | cons y0 yrest =>
      rw [hys] at hcd
      simp only [] at hcd
      by_cases h2 : normalizedMetricsSrc plan.metrics tbl (y0 :: yrest) = []
      · rw [if_pos h2] at hcd; simp at hcd
      · rw [if_neg h2] at hcd
        by_cases hpie : plan.chartType = "pie".toList
        · rw [if_pos hpie] at hcd
          by_cases h3 : (normalizedMetricsSrc plan.metrics tbl (y0 :: yrest)).filterMap
              (fun name =>
                (List.lookup name
                  (lookupYear tbl ((y0 :: yrest).getLast (by simp)))).map
                  (fun v => ChartSeries.mk (seriesLabel name) [v])) = []
          · rw [if_pos h3] at hcd; simp at hcd
          · rw [if_neg h3] at hcd
            have hcd' := Option.some.inj hcd
            subst hcd'
            refine ⟨by simp, ?_, ?_⟩
            · intro h
              rcases h with h | h
              · exact absurd h (by decide : ¬ ("pie".toList : Str) = "line".toList)
              · exact absurd h (by decide : ¬ ("pie".toList : Str) = "bar".toList)
            · intro _
              constructor
              · intro s hs
                rw [List.mem_filterMap] at hs
                obtain ⟨name, _, hmap⟩ := hs
                rw [Option.map_eq_some'] at hmap
                obtain ⟨v, _, rfl⟩ := hmap
                rfl
              · refine ⟨(y0 :: yrest).getLast (by simp), rfl, ?_⟩
                intro z hz
                have hzmem : z ∈ (y0 :: yrest) := by
                  rw [← hys, sortedYears_mem]; exact hz
                have hsorted : (y0 :: yrest).Sorted (· ≤ ·) := by
                  rw [← hys]; exact sortedYears_sorted_le tbl
                exact sorted_le_getLast _ hsorted _
                  (List.getLast?_eq_getLast _ (by simp)) z hzmem
        · rw [if_neg hpie] at hcd
          by_cases h3 : (normalizedMetricsSrc plan.metrics tbl (y0 :: yrest)).filterMap
              (fun name =>
                if ((y0 :: yrest).map
                    (fun y => (List.lookup name (lookupYear tbl y)).getD 0)).any
                    (fun v => decide (v ≠ 0)) then
                  some (ChartSeries.mk (seriesLabel name)
                    ((y0 :: yrest).map
                      (fun y => (List.lookup name (lookupYear tbl y)).getD 0)))
                else none) = []
          · rw [if_pos h3] at hcd; simp at hcd
          · rw [if_neg h3] at hcd
            have hcd' := Option.some.inj hcd
            subst hcd'
            refine ⟨?_, ?_, ?_⟩
            · rw [show (y0 :: yrest) = sortedYears tbl from hys.symm]
              exact sortedYears_sorted_lt tbl hnd
            · intro _ s hs
              rw [List.mem_filterMap] at hs
              obtain ⟨name, _, hval⟩ := hs
              by_cases hany : ((y0 :: yrest).map
                  (fun y => (List.lookup name (lookupYear tbl y)).getD 0)).any
                  (fun v => decide (v ≠ 0))
              · rw [if_pos hany] at hval
                have := Option.some.inj hval
                subst this
                simp [List.length_map]
              · rw [if_neg hany] at hval
                exact absurd hval (by simp)
            · intro h
              exact absurd h hpie

theorem chart_data_invariants_witness :
    (ChartData.mk "line".toList [2022, 2023]
      [ChartSeries.mk "Revenue".toList [100, 150]]).years.Sorted (· < ·) ∧
    (∀ s ∈ (ChartData.mk "line".toList [2022, 2023]
      [ChartSeries.mk "Revenue".toList [100, 150]]).series,
      s.values.length = (ChartData.mk "line".toList [2022, 2023]
        [ChartSeries.mk "Revenue".toList [100, 150]]).years.length) := by
  have h := chart_data_invariants
    [(2022, [("revenue".toList, (100 : ℚ))]), (2023, [("revenue".toList, 150)])]
    (by decide)
    ⟨true, "line".toList, "year".toList, ["revenue".toList], "none".toList⟩
    (ChartData.mk "line".toList [2022, 2023] [ChartSeries.mk "Revenue".toList [100, 150]])
    (by decide)
  exact ⟨h.1, h.2.1 (Or.inl rfl)⟩

/-! ## Chart planner (`charts.py`, `plan_chart_config`) -/

/-- Python/JSON values as relevant to the planner's response handling. -/
inductive PyVal where
  | vNone : PyVal
  | vBool : Bool → PyVal
  | vNum : ℚ → PyVal
  | vStr : Str → PyVal
  | vList : List PyVal → PyVal
  | vDict : List (Str × PyVal) → PyVal

/-- Python truthiness `bool(x)` on such values. -/
def pyTruthy : PyVal → Bool
  | PyVal.vNone => false
  | PyVal.vBool b => b
  | PyVal.vNum q => decide (q ≠ 0)
  | PyVal.vStr s => !s.isEmpty
  | PyVal.vList l => !l.isEmpty
  | PyVal.vDict d => !d.isEmpty

/-- Models `config.get(k)`: `None` when the key is absent. -/
def dictGet (d : List (Str × PyVal)) (k : Str) : PyVal :=
  (List.lookup k d).getD PyVal.vNone

/-- The dict returned by `plan_chart_config` (typed view: `chart_type` is
always one of the four literal strings after validation, the remaining fields
pass through untyped). -/
structure PlanConfig where
  wantsChart : Bool
  chartType : Str
  xAxis : PyVal
  metrics : PyVal
  aggregation : PyVal

/-- The conservative no-chart fallback configuration. -/
def conservativePlanConfig : PlanConfig :=
  ⟨false, "none".toList, PyVal.vStr "year".toList, PyVal.vList [],
   PyVal.vStr "none".toList⟩

/-- The `if chart_type not in ("line", "bar", "pie"): chart_type = "none";
wants_chart = False` validation step, returning the final
`(wants_chart, chart_type)` pair. -/
def validateChartType (v : PyVal) (w : Bool) : Bool × Str :=
  match v with
  | PyVal.vStr ct =>
    if ct = "line".toList ∨ ct = "bar".toList ∨ ct = "pie".toList then (w, ct)
    else (false, "none".toList)
  | _ => (false, "none".toList)

/-- Models `plan_chart_config` from `charts.py`, abstracted over the raw generation
response `raw` and over Python's `json.loads` (the oracle `jsonLoads`, `none`
standing for a parse exception).  Locates the JSON substring between the first
`{` and the last `}` (an absent brace raises, caught by the outer handler),
parses it, and validates the fields exactly as the source does. -/
def planChartConfig (raw : Str) (jsonLoads : Str → Option PyVal) : PlanConfig :=
  match pyIndex '{' raw, pyRIndex '}' raw with
  | some s, some r =>
    match jsonLoads ((raw.drop s).take (r + 1 - s)) with
    | some (PyVal.vDict d) =>
      let wantsChart := pyTruthy (dictGet d "wants_chart".toList)
      let ct0 := if pyTruthy (dictGet d "chart_type".toList) then
          dictGet d "chart_type".toList else PyVal.vStr "none".toList
      let xAxis := if pyTruthy (dictGet d "x_axis".toList) then
          dictGet d "x_axis".toList else PyVal.vStr "year".toList
      let metrics := if pyTruthy (dictGet d "metrics".toList) then
          dictGet d "metrics".toList else PyVal.vList []
      let aggregation := if pyTruthy (dictGet d "aggregation".toList) then
          dictGet d "aggregation".toList else PyVal.vStr "none".toList
      ⟨(validateChartType ct0 wantsChart).1, (validateChartType ct0 wantsChart).2,
       xAxis, metrics, aggregation⟩
    | _ => conservativePlanConfig
  | _, _ => conservativePlanConfig

/-- The values of `chart_type` accepted by the planner's validation. -/
def chartTypeOk (v : PyVal) : Prop :=
  v = PyVal.vStr "line".toList ∨ v = PyVal.vStr "bar".toList ∨
    v = PyVal.vStr "pie".toList

theorem validateChartType_mem (v : PyVal) (w : Bool) :
    (validateChartType v w).2 = "line".toList ∨
    (validateChartType v w).2 = "bar".toList ∨
    (validateChartType v w).2 = "pie".toList ∨
    (validateChartType v w).2 = "none".toList := by
  cases v with
  | vStr ct =>
    have hdef : validateChartType (PyVal.vStr ct) w =
        (if ct = "line".toList ∨ ct = "bar".toList ∨ ct = "pie".toList then (w, ct)
         else (false, "none".toList)) := rfl
    rw [hdef]
    by_cases h : ct = "line".toList ∨ ct = "bar".toList ∨ ct = "pie".toList
    · rw [if_pos h]
      rcases h with h | h | h <;> simp [h]
    · rw [if_neg h]
      simp
  | vNone => simp [validateChartType]
  | vBool b => simp [validateChartType]
  | vNum q => simp [validateChartType]
  | vList l => simp [validateChartType]
  | vDict d => simp [validateChartType]

theorem validateChartType_not_ok (v : PyVal) (w : Bool) (h : ¬ chartTypeOk v) :
    validateChartType v w = (false, "none".toList) := by
  cases v with
  | vStr ct =>
    have hne : ¬ (ct = "line".toList ∨ ct = "bar".toList ∨ ct = "pie".toList) := by
      intro hc
      apply h
      unfold chartTypeOk
      rcases hc with h | h | h <;> simp [h]
    have hdef : validateChartType (PyVal.vStr ct) w =
        (if ct = "line".toList ∨ ct = "bar".toList ∨ ct = "pie".toList then (w, ct)
         else (false, "none".toList)) := rfl
    rw [hdef, if_neg hne]
  | vNone => rfl
  | vBool b => rfl
  | vNum q => rfl
  | vList l => rfl
  | vDict d => rfl

/-- C3: the planner's `chart_type` is always one of line/bar/pie/none; a
response without braces, or whose extracted first-`{`-to-last-`}` substring
fails to parse, or parses to a non-dict, yields the conservative no-chart plan;
and a parsed `chart_type` outside {line, bar, pie} (e.g. `"scatter"`) forces
`chart_type = "none"` and `wants_chart = false`. -/
theorem plan_chart_config_validated (raw : Str) (jsonLoads : Str → Option PyVal) :
    ((planChartConfig raw jsonLoads).chartType = "line".toList ∨
     (planChartConfig raw jsonLoads).chartType = "bar".toList ∨
     (planChartConfig raw jsonLoads).chartType = "pie".toList ∨
     (planChartConfig raw jsonLoads).chartType = "none".toList) ∧
    (pyIndex '{' raw = none ∨ pyRIndex '}' raw = none →
      planChartConfig raw jsonLoads = conservativePlanConfig) ∧
    (∀ s r, pyIndex '{' raw = some s → pyRIndex '}' raw = some r →
      (jsonLoads ((raw.drop s).take (r + 1 - s)) = none ∨
       ∀ d, jsonLoads ((raw.drop s).take (r + 1 - s)) ≠ some (PyVal.vDict d)) →
      planChartConfig raw jsonLoads = conservativePlanConfig) ∧
    (∀ s r d, pyIndex '{' raw = some s → pyRIndex '}' raw = some r →
      jsonLoads ((raw.drop s).take (r + 1 - s)) = some (PyVal.vDict d) →
      ¬ chartTypeOk (dictGet d "chart_type".toList) →
      (planChartConfig raw jsonLoads).chartType = "none".toList ∧
      (planChartConfig raw jsonLoads).wantsChart = false) := by
  refine ⟨?_, ?_, ?_, ?_⟩
  · unfold planChartConfig
    repeat' split
    all_goals first
      | exact validateChartType_mem _ _
      | simp [conservativePlanConfig]
  · intro h
    unfold planChartConfig
    rcases h with h | h
    · rw [h]
    · rw [h]
      cases pyIndex '{' raw <;> rfl
  · intro s r hs hr hj
    unfold planChartConfig
    rw [hs, hr]
    dsimp only
    rcases hj with hj | hj
    · rw [hj]
    · cases hcase : jsonLoads ((raw.drop s).take (r + 1 - s)) with
      | none => rfl
      | some v =>
        cases v with
        | vDict d => exact absurd hcase (hj d)
        | vNone => rfl
        | vBool b => rfl
        | vNum q => rfl
        | vStr st => rfl
        | vList l => rfl
  · intro s r d hs hr hj hbad
    unfold planChartConfig
    rw [hs, hr]
    dsimp only
    rw [hj]
    dsimp only
    have hval : validateChartType
        (if pyTruthy (dictGet d "chart_type".toList) then
          dictGet d "chart_type".toList else PyVal.vStr "none".toList)
        (pyTruthy (dictGet d "wants_chart".toList)) = (false, "none".toList) := by
      by_cases htr : pyTruthy (dictGet d "chart_type".toList)
      · rw [if_pos htr]
        exact validateChartType_not_ok _ _ hbad
      · rw [if_neg htr]
        apply validateChartType_not_ok
        intro hc
        rcases hc with h | h | h <;>
          exact absurd (PyVal.vStr.inj h) (by decide)
    constructor
    · show (validateChartType _ _).2 = "none".toList
      rw [hval]
    · show (validateChartType _ _).1 = false
      rw [hval]

theorem plan_chart_config_validated_witness :
    planChartConfig "not json".toList (fun _ => none) = conservativePlanConfig ∧
    ((planChartConfig "{x}".toList
        (fun _ => some (PyVal.vDict
          [("chart_type".toList, PyVal.vStr "scatter".toList)]))).chartType =
      "none".toList ∧
     (planChartConfig "{x}".toList
        (fun _ => some (PyVal.vDict
          [("chart_type".toList, PyVal.vStr "scatter".toList)]))).wantsChart = false) := by
  constructor
  · exact (plan_chart_config_validated "not json".toList (fun _ => none)).2.1
      (Or.inl (by decide))
  · refine (plan_chart_config_validated "{x}".toList _).2.2.2 0 2
      [("chart_type".toList, PyVal.vStr "scatter".toList)]
      (by decide) (by decide) rfl ?_
    intro h
    rcases h with h | h | h <;>
      · have := PyVal.vStr.inj h
        revert this
        decide

/-! ## Query classifier and short-circuit paths (`routers/chat.py`) -/

/-- Models `_normalize(text)`: lowercase, keep letters and spaces, strip. -/
def pyNormalize (s : Str) : Str :=
  pyStrip ((pyLower s).filter (fun c => c.isAlpha || pyIsSpace c))

/-- The fixed greeting phrase list of `_is_greeting`. -/
def greetingKeywords : List Str :=
  ["hi", "hello", "hey", "good morning", "good afternoon", "good evening"].map
    String.toList

/-- Models `_is_greeting(text)` from `routers/chat.py`. -/
def isGreeting (text : Str) : Bool :=
  let n := pyNormalize text
  (greetingKeywords.any (fun kw => n = kw || (kw ++ [' ']).isPrefixOf n)) &&
    (pyWords n).length ≤ 5

/-- The fixed overview phrase list of `_is_smalltalk_or_overview` (the
apostrophe-bearing entry uses the right single quotation mark U+2019 of the
source literal). -/
def overviewPhrases : List Str :=
  (["overview", "high level", "highlevel", "summary", "quick summary",
    "tell me something", "tell me about", "anything interesting",
    "how are we doing", "how is business"].map String.toList) ++
  ["how".toList ++ [Char.ofNat 8217] ++ "s business".toList] ++
  (["hows business", "what do you know", "where do we stand", "status",
    "performance summary", "company summary", "quick recap", "recap"].map
    String.toList)

/-- The fixed smalltalk phrase list of `_is_smalltalk_or_overview` (the first
entry contains an ASCII apostrophe, code 39). -/
def smalltalkPhrases : List Str :=
  ["what".toList ++ [Char.ofNat 39] ++ "s up".toList] ++
  (["whats up", "sup", "yo", "how are you", "how are u", "how r u"].map
    String.toList)

/-- Models `_is_smalltalk_or_overview(text)` from `routers/chat.py`. -/
def isSmalltalkOrOverview (text : Str) : Bool :=
  let n := pyNormalize text
  if (overviewPhrases ++ smalltalkPhrases).any (fun p => pyContains n p) then true
  else if (pyWords n).length ≤ 4 &&
      ((["summary", "overview", "status", "update"].map String.toList).any
        (fun w => pyContains n w)) then true
  else false

/-- The visualization-intent keyword gate of `chat_query`. -/
def wantsVisualization (question : Str) : Bool :=
  (["show", "visualize", "visualise", "plot", "graph", "chart", "draw",
    "diagram"].map String.toList).any (fun kw => pyContains (pyLower question) kw)

/-- Which of the three `chat_query` answer paths a question takes. -/
inductive QueryPath where
  | greeting : QueryPath
  | overview : QueryPath
  | substantive : QueryPath
deriving DecidableEq

/-- The branch structure of `chat_query` up to (and including) the two
short-circuit returns: which path is taken, paired with the number of
text-completion (`call_llm`) invocations performed before that path returns.
The greeting branch returns a template directly; the overview branch answers
via `_build_quick_overview` (no generation call) but additionally runs
`plan_chart_config` — which performs one `call_llm` — whenever the question
carries a visualization keyword and the metrics table is non-empty. -/
def chatShortCircuit (question : Str) (metricsByYear : Table) : QueryPath × Nat :=
  let wantsViz := wantsVisualization question
  if isGreeting question then (QueryPath.greeting, 0)
  else if isSmalltalkOrOverview question then
    (QueryPath.overview, if wantsViz && !metricsByYear.isEmpty then 1 else 0)
  else (QueryPath.substantive, 0)

/-- C2 counterexample: the question `"show me a summary"` is classified as
overview/smalltalk, and with a non-empty metrics table the overview
short-circuit branch performs one generation call (inside the chart planner),
refuting the claim that neither short-circuit branch ever invokes the
text-completion capability. -/
theorem overview_branch_calls_llm :
    chatShortCircuit "show me a summary".toList
      [(2023, [("revenue".toList, (100 : ℚ))])] = (QueryPath.overview, 1) := by
  decide

/-- C2 amended: the greeting branch makes no generation call; the overview
branch makes no generation call either, unless the question contains a
visualization keyword and metrics are available, in which case it makes exactly
one generation call (the chart planner's). -/
theorem short_circuit_llm_calls (q : Str) (tbl : Table) :
    (isGreeting q = true → chatShortCircuit q tbl = (QueryPath.greeting, 0)) ∧
    (isGreeting q = false → isSmalltalkOrOverview q = true →
      (wantsVisualization q = false ∨ tbl = []) →
      chatShortCircuit q tbl = (QueryPath.overview, 0)) ∧
    (isGreeting q = false → isSmalltalkOrOverview q = true →
      wantsVisualization q = true → tbl ≠ [] →
      chatShortCircuit q tbl = (QueryPath.overview, 1)) := by
  refine ⟨?_, ?_, ?_⟩
  · intro hg
    simp [chatShortCircuit, hg]
  · intro hg ho hcond
    rcases hcond with h | h
    · simp [chatShortCircuit, hg, ho, h]
    · simp [chatShortCircuit, hg, ho, h]
  · intro hg ho hv htbl
    have : tbl.isEmpty = false := by
      cases tbl with
      | nil => exact absurd rfl htbl
      | cons x xs => rfl
    simp [chatShortCircuit, hg, ho, hv, this]

theorem short_circuit_llm_calls_witness :
    chatShortCircuit "hello".toList [] = (QueryPath.greeting, 0) ∧
    chatShortCircuit "give me a summary".toList [] = (QueryPath.overview, 0) ∧
    chatShortCircuit "show me a summary".toList
      [(2023, [("revenue".toList, (100 : ℚ))])] = (QueryPath.overview, 1) :=
  ⟨(short_circuit_llm_calls "hello".toList []).1 (by decide),
   (short_circuit_llm_calls "give me a summary".toList []).2.1 (by decide) (by decide)
     (Or.inr rfl),
   (short_circuit_llm_calls "show me a summary".toList
       [(2023, [("revenue".toList, (100 : ℚ))])]).2.2 (by decide) (by decide)
     (by decide) (by decide)⟩

/-! ## Embedding gateway (`llm.py`, `embed_texts`) and chunk storage
(`parsing.py`, `parse_pdf_and_populate_metrics`, step 5) -/

/-- Helper for batch slicing; the fuel (instantiated with the list length,
which bounds the iteration count) makes the recursion structural. -/
def toBatchesAux : Nat → List Str → List (List Str)
  | 0, _ => []
  | fuel + 1, l => if l = [] then [] else l.take 100 :: toBatchesAux fuel (l.drop 100)

/-- Models `range(0, len(texts), batch_size)` slicing with the fixed batch size 100. -/
def toBatches (l : List Str) : List (List Str) := toBatchesAux l.length l

/-- What one embedding API batch call yields to `embed_texts` after response
unwrapping: either an exception (`Except.error`) — caught per batch, the batch
contributing nothing — or a list of raw per-item embeddings, each either
malformed/skipped (`none`) or a numeric vector (empty vectors are skipped
too). -/
abbrev EmbedApi := List Str → Except Unit (List (Option (List ℚ)))

/-- The per-batch extraction loop: keep exactly the well-formed non-empty
vectors, in order. -/
def processBatch (r : List (Option (List ℚ))) : List (List ℚ) :=
  r.filterMap (fun o =>
    match o with
    | some v => if v = [] then none else some v
    | none => none)

/-- Models `embed_texts(texts)` from `llm.py`, abstracted over the per-batch API
outcome: texts are processed in batches of 100, a failed batch contributes no
vectors (the loop continues), and the call raises — `Except.error` — exactly
when no vector at all was produced (for non-empty input). -/
def embedTexts (texts : List Str) (api : EmbedApi) : Except Unit (List (List ℚ)) :=
  if texts = [] then Except.ok []
  else
    let embeddings := ((toBatches texts).map (fun b =>
      match api b with
      | Except.ok r => processBatch r
      | Except.error _ => [])).flatten
    if embeddings = [] then Except.error () else Except.ok embeddings

/-- A chunk awaiting storage: `(page_number, chunk_index, text)`. -/
abbrev RawChunk := Nat × Nat × Str

/-- A stored `DocumentChunk` row (embedding `none` when absent). -/
structure StoredChunk where
  pageNumber : Nat
  chunkIndex : Nat
  text : Str
  embedding : Option (List ℚ)
deriving DecidableEq

/-- Step 5 of `parse_pdf_and_populate_metrics`: run `embed_texts` over the
chunk texts inside a `try`; on an exception use `[None] * len(raw_chunks)`,
then store `zip(raw_chunks, vectors)` — Python's `zip` truncating at the
shorter list. -/
def ingestStore (rawChunks : List RawChunk)
    (embedResult : Except Unit (List (List ℚ))) : List StoredChunk :=
  let vectors : List (Option (List ℚ)) :=
    match embedResult with
    | Except.error _ => List.replicate rawChunks.length none
    | Except.ok vs => vs.map some
  (rawChunks.zip vectors).map (fun p =>
    StoredChunk.mk p.1.1 p.1.2.1 p.1.2.2 p.2)

/-- The chunk list used in the C1 counterexample: 101 one-character chunks on
page 1, so that the embedding runs in two batches (100 + 1). -/
def c1Chunks : List RawChunk := (List.range 101).map (fun i => (1, i, ['a']))

/-- The API behaviour of the C1 counterexample: the first batch (100 texts)
fails, the second batch (1 text) succeeds with one vector. -/
def c1Api : EmbedApi := fun b => if b.length = 100 then Except.error () else
  Except.ok [some [1]]

/-- C1 counterexample: with 101 chunks, a failed first batch and a successful
second batch, `embed_texts` returns one vector (tolerated, non-fatal), but the
positional `zip` in `parse_pdf_and_populate_metrics` then stores only ONE chunk
— pairing it with the other batch's vector — and drops the remaining 100,
including every chunk of the failed batch: chunks of a failed batch are NOT
stored with an empty embedding. -/
theorem failed_batch_chunks_dropped :
    c1Chunks.length = 101 ∧
    embedTexts (c1Chunks.map (fun c => c.2.2)) c1Api = Except.ok [[1]] ∧
    ingestStore c1Chunks (embedTexts (c1Chunks.map (fun c => c.2.2)) c1Api) =
      [StoredChunk.mk 1 0 ['a'] (some [1])] := by
  refine ⟨by decide, rfl, by decide⟩

/-- C1 amended: the count mismatch is tolerated (never fatal to ingestion), and
when `embed_texts` raises — which is when zero vectors were produced — every
chunk is stored with no embedding; but when it returns `k` vectors for `n`
texts, only `min n k` chunk records are stored (positionally zipped), so chunks
beyond the vector count — those lost to a failed batch — are dropped rather
than stored without an embedding. -/
theorem ingest_store_amended (rawChunks : List RawChunk)
    (res : Except Unit (List (List ℚ))) :
    (res = Except.error () →
      ingestStore rawChunks res =
        rawChunks.map (fun c => StoredChunk.mk c.1 c.2.1 c.2.2 none)) ∧
    (∀ vs, res = Except.ok vs →
      (ingestStore rawChunks res).length = min rawChunks.length vs.length) := by
  constructor
  · intro h
    subst h
    unfold ingestStore
    dsimp only
    induction rawChunks with
    | nil => rfl
    | cons c cs ih =>
      simp only [List.length_cons, List.replicate_succ, List.zip_cons_cons,
        List.map_cons, ih]
  · intro vs h
    subst h
    unfold ingestStore
    rw [List.length_map, List.length_zip, List.length_map]

theorem ingest_store_amended_witness :
    ingestStore [(1, 0, ['a']), (1, 1, ['b'])] (Except.error ()) =
      [StoredChunk.mk 1 0 ['a'] none, StoredChunk.mk 1 1 ['b'] none] ∧
    (ingestStore [(1, 0, ['a']), (1, 1, ['b'])] (Except.ok [[1]])).length = 1 :=
  ⟨(ingest_store_amended [(1, 0, ['a']), (1, 1, ['b'])] (Except.error ())).1 rfl,
   (ingest_store_amended [(1, 0, ['a']), (1, 1, ['b'])] (Except.ok [[1]])).2 [[1]] rfl⟩

end Elimentary
